import Mathlib

/-!
Verification of the wildlife-photo scraper repository.

The repository holds three scripts:
  * `scripts/scrape_ebird.py`      - browser-rendered eBird scraper (Playwright),
  * `birdslide/scripts/scrape_ebird.py` - static-HTML eBird scraper (requests + BeautifulSoup),
  * `scripts/scrape_inat.py`       - iNaturalist API scraper.

This file embeds the pure data-processing parts of those scripts: the
concatenate-then-deduplicate-then-truncate asset pipeline of the two eBird
variants (with the page abstracted as the per-heuristic regex match lists, in
document order, since HTML parsing and regex search are delegated to
libraries), the iNaturalist observation normalizer with its license lookup
tables and URL rewrite, the fallback data, and the JSON output envelopes.
Fallible fetches are modelled as an `Except` input: the `error` branch is the
script's top-level exception handler.
-/

/-- The deduplication loop shared verbatim by both eBird scrapers
(`unique_assets` / `seen` in the sources): walk the collected matches in
order, keep an element if it is unseen and has length at least 8, and stop
as soon as `cap` unique elements have been kept (the cap test runs right
after an append). -/
def dedupLoop (cap : Nat) : List String → List String → List String → List String
  | _, acc, [] => acc
  | seen, acc, a :: rest =>
    if a ∉ seen ∧ 8 ≤ a.length then
      if cap ≤ (acc ++ [a]).length then acc ++ [a]
      else dedupLoop cap (a :: seen) (acc ++ [a]) rest
    else dedupLoop cap seen acc rest

/-- Uncapped first-occurrence deduplication keeping only strings of length at
least 8, relative to an already-seen set.  Specification helper used to
characterise `dedupLoop`. -/
def uniqFrom : List String → List String → List String
  | _, [] => []
  | seen, a :: rest =>
    if a ∉ seen ∧ 8 ≤ a.length then a :: uniqFrom (a :: seen) rest
    else uniqFrom seen rest

namespace EbirdPl

/-- `get_fallback_assets` of `scripts/scrape_ebird.py`. -/
def get_fallback_assets : List String :=
  ["629849023", "629848993", "629848963", "629848933",
   "629848903", "629848873", "629848843", "629848813"]

/-- `scrape_ebird_photos` of `scripts/scrape_ebird.py` (Playwright variant),
success path.  The fetched page is abstracted as the eight per-heuristic match
lists, in the order the script extends `asset_numbers`: DOM image `src` digit
runs, DOM anchor `/asset/` ids, then the six regex passes over the page
content (asset URLs, `ML` numbers, `catalogId`, `assetId`, image paths, data
attributes).  Dedup cap is 50, final truncation is 12, zero matches yield the
fallback list. -/
def scrape_ebird_photos (imgMatches linkMatches pattern1 pattern2 pattern3
    pattern4 pattern5 pattern6 : List String) : List String :=
  let asset_numbers := imgMatches ++ linkMatches ++ pattern1 ++ pattern2 ++
    pattern3 ++ pattern4 ++ pattern5 ++ pattern6
  let unique_assets := dedupLoop 50 [] [] asset_numbers
  if unique_assets = [] then get_fallback_assets else unique_assets.take 12

end EbirdPl

namespace EbirdBs

/-- `get_fallback_assets` of `birdslide/scripts/scrape_ebird.py`. -/
def get_fallback_assets : List String :=
  ["629849023", "629848993", "629848963", "629848933",
   "629848903", "629848873", "629848843", "629848813"]

/-- `scrape_ebird_photos` of `birdslide/scripts/scrape_ebird.py` (static-HTML
variant), success path.  The page is abstracted as the four per-heuristic
match lists in the order the script collects them: anchor hrefs, image `src`
digit runs, `data-asset-id` attributes, raw-text `ML` numbers.  Dedup cap is
15; the inline fallback replaces an empty result before the final `[:12]`
truncation. -/
def scrape_ebird_photos (pattern1 pattern2 pattern3 pattern4 : List String) :
    List String :=
  let asset_numbers := pattern1 ++ pattern2 ++ pattern3 ++ pattern4
  let unique_assets := dedupLoop 15 [] [] asset_numbers
  let unique_assets := if unique_assets = [] then
      ["629849023", "629848993", "629848963", "629848933",
       "629848903", "629848873", "629848843", "629848813"]
    else unique_assets
  unique_assets.take 12

end EbirdBs

/-- The JSON envelope written by `save_assets` in both eBird scripts (the
generation timestamp `datetime.now().isoformat()` is passed in as `now`). -/
structure AssetsEnvelope where
  last_updated : String
  source : String
  count : Nat
  assets : List String
deriving DecidableEq

namespace EbirdPl

/-- `save_assets` of `scripts/scrape_ebird.py` (writes `birdslide/assets.json`). -/
def save_assets (now : String) (asset_numbers : List String) : AssetsEnvelope :=
  { last_updated := now,
    source := "eBird Top Photos (Last 7 Days)",
    count := asset_numbers.length,
    assets := asset_numbers }

end EbirdPl

namespace EbirdBs

/-- `save_assets` of `birdslide/scripts/scrape_ebird.py` (writes `assets.json`). -/
def save_assets (now : String) (asset_numbers : List String) : AssetsEnvelope :=
  { last_updated := now,
    source := "eBird Top Photos (Last 7 Days)",
    count := asset_numbers.length,
    assets := asset_numbers }

end EbirdBs

/-- Fuelled worker for Python's `str.replace`: scan left to right, replace
every non-overlapping occurrence of `pat`.  The fuel only pads structural
recursion; it is irrelevant whenever it is at least the input length. -/
def replaceAllAux (pat rep : List Char) : Nat → List Char → List Char
  | _, [] => []
  | 0, l => l
  | fuel + 1, a :: rest =>
    if pat.isPrefixOf (a :: rest) ∧ pat ≠ [] then
      rep ++ replaceAllAux pat rep fuel (rest.drop (pat.length - 1))
    else
      a :: replaceAllAux pat rep fuel rest

/-- Python's `str.replace(pat, rep)` on character lists (for nonempty `pat`,
as at every call site of the scripts): replace every non-overlapping
occurrence of `pat` by `rep`, scanning left to right. -/
def replaceAll (pat rep l : List Char) : List Char :=
  replaceAllAux pat rep l.length l

/-- Python's `str.replace` on strings. -/
def stringReplace (s pat rep : String) : String :=
  String.mk (replaceAll pat.data rep.data s.data)

/-- Python's `str.lower` (ASCII range, as used on license codes). -/
def strLower (s : String) : String := String.mk (s.data.map Char.toLower)

/-- Python's `str.upper` (ASCII range, as used on license codes). -/
def strUpper (s : String) : String := String.mk (s.data.map Char.toUpper)

namespace Inat

/-- One element of a raw result's `photos` list, with the fields
`scrape_inat.py` reads (`none` models an absent or JSON-null key). -/
structure RawPhoto where
  license_code : Option String
  url : Option String
deriving DecidableEq

/-- The raw `user` object. -/
structure RawUser where
  login : Option String
  name : Option String
deriving DecidableEq

/-- The raw `taxon` object. -/
structure RawTaxon where
  preferred_common_name : Option String
  name : Option String
deriving DecidableEq

/-- One raw iNaturalist API result, with the fields the script reads. -/
structure RawObs where
  id : Option Nat
  photos : List RawPhoto
  taxon : Option RawTaxon
  user : Option RawUser
  place_guess : Option String
  observed_on_string : Option String
  created_at : Option String
  quality_grade : Option String
deriving DecidableEq

/-- A normalized observation record, as built by the loop body of
`scrape_inat_observations`. -/
structure Observation where
  id : Option Nat
  image_url : String
  species_common : String
  species_scientific : String
  observer : String
  observer_login : String
  date : String
  location : String
  license_code : String
  license_name : String
  license_url : String
  obs_url : String
  quality_grade : String
deriving DecidableEq

/-- `get_license_name` of `scrape_inat.py`: fixed lookup table over the
lower-cased code, falling back to the upper-cased raw code. -/
def get_license_name (license_code : String) : String :=
  let l := strLower license_code
  if l = "cc-by" then "CC BY"
  else if l = "cc-by-nc" then "CC BY-NC"
  else if l = "cc-by-sa" then "CC BY-SA"
  else if l = "cc-by-nd" then "CC BY-ND"
  else if l = "cc-by-nc-sa" then "CC BY-NC-SA"
  else if l = "cc-by-nc-nd" then "CC BY-NC-ND"
  else if l = "cc0" then "CC0 (Public Domain)"
  else strUpper license_code

/-- `get_license_url` of `scrape_inat.py`: the public-domain deed for
`cc0`, otherwise the templated 4.0 deed with the `cc-` marker stripped. -/
def get_license_url (license_code : String) : String :=
  if strLower license_code = "cc0" then
    "https://creativecommons.org/publicdomain/zero/1.0/"
  else
    let license_type := stringReplace (strLower license_code) "cc-" ""
    "https://creativecommons.org/licenses/" ++ license_type ++ "/4.0/"

/-- Default for `obs.get('taxon', {})`. -/
def emptyTaxon : RawTaxon := ⟨none, none⟩

/-- Default for `obs.get('user', {})`. -/
def emptyUser : RawUser := ⟨none, none⟩

/-- Rendering of `obs.get('id')` inside the Python f-string building
`obs_url` (a missing id prints as `None`). -/
def idStr : Option Nat → String
  | some n => toString n
  | none => "None"

/-- The body of the `for obs in results` loop of
`scrape_inat_observations`: skip a result without photos, skip one whose
first photo has a falsy license code, otherwise build the record.  -/
def normObs (obs : RawObs) : Option Observation :=
  match obs.photos with
  | [] => none
  | photo :: _ =>
    let taxon := obs.taxon.getD emptyTaxon
    let common_name := taxon.preferred_common_name.getD ""
    let scientific_name := taxon.name.getD "Unknown species"
    let user := obs.user.getD emptyUser
    let observer_login := user.login.getD "Unknown"
    let observer_name := user.name.getD observer_login
    let place_guess := obs.place_guess.getD ""
    let location := if place_guess = "" then "Location obscured" else place_guess
    let observed_on := obs.observed_on_string.getD (obs.created_at.getD "")
    match photo.license_code with
    | none => none
    | some license_code =>
      if license_code = "" then none
      else
        some {
          id := obs.id,
          image_url := stringReplace (photo.url.getD "") "square" "large",
          species_common := common_name,
          species_scientific := scientific_name,
          observer := observer_name,
          observer_login := observer_login,
          date := observed_on,
          location := location,
          license_code := license_code,
          license_name := get_license_name license_code,
          license_url := get_license_url license_code,
          obs_url := "https://www.inaturalist.org/observations/" ++ idStr obs.id,
          quality_grade := obs.quality_grade.getD "" }

/-- The accumulation loop of `scrape_inat_observations`: append each
normalized record and stop as soon as `per_page` records have been
collected (the check runs right after an append). -/
def processLoop (per_page : Nat) : List Observation → List RawObs → List Observation
  | acc, [] => acc
  | acc, obs :: rest =>
    match normObs obs with
    | none => processLoop per_page acc rest
    | some o =>
      if per_page ≤ (acc ++ [o]).length then acc ++ [o]
      else processLoop per_page (acc ++ [o]) rest

/-- `get_fallback_observations` of `scrape_inat.py`. -/
def get_fallback_observations : List Observation :=
  [{ id := some 123456789,
     image_url := "https://via.placeholder.com/1024x768?text=iNaturalist+observation",
     species_common := "Sample Species",
     species_scientific := "Genus species",
     observer := "Sample Observer",
     observer_login := "observer",
     date := "Dec 15, 2025",
     location := "Sample Location",
     license_code := "cc-by",
     license_name := "CC BY",
     license_url := "https://creativecommons.org/licenses/by/4.0/",
     obs_url := "https://www.inaturalist.org",
     quality_grade := "research" }]

/-- `scrape_inat_observations` of `scrape_inat.py` with the transport
modelled as an `Except`: the `error` branch is the script's top-level
`except` handler (both `requests.RequestException` and the generic
`Exception` clause return the fallback), and the `ok` branch processes the
parsed `results` list. -/
def scrape_inat_observations (per_page : Nat)
    (fetch : Except String (List RawObs)) : List Observation :=
  match fetch with
  | .error _ => get_fallback_observations
  | .ok results => processLoop per_page [] results

/-- The JSON envelope written by `save_observations` (the generation
timestamp `datetime.now().isoformat()` is passed in as `now`). -/
structure ObsEnvelope where
  last_updated : String
  source : String
  taxon_id : String
  count : Nat
  observations : List Observation
deriving DecidableEq

/-- `save_observations` of `scrape_inat.py`. -/
def save_observations (now : String) (observations : List Observation)
    (taxon_id : String) : ObsEnvelope :=
  { last_updated := now,
    source := "iNaturalist",
    taxon_id := taxon_id,
    count := observations.length,
    observations := observations }

end Inat

/-- Concrete raw results used to instantiate the claims. -/
def c3ObsEmptyPhotos : Inat.RawObs :=
  { id := none, photos := [], taxon := none, user := none, place_guess := none,
    observed_on_string := none, created_at := none, quality_grade := none }

def c3ObsNoLicense : Inat.RawObs :=
  { id := some 7, photos := [{ license_code := none, url := some "u" }],
    taxon := none, user := none, place_guess := none,
    observed_on_string := none, created_at := none, quality_grade := none }

def c3ObsCc0 : Inat.RawObs :=
  { id := some 8, photos := [{ license_code := some "cc0", url := some "u" }],
    taxon := none, user := none, place_guess := none,
    observed_on_string := none, created_at := none, quality_grade := none }

/-- Concrete raw result with a display name, for the C7 witness. -/
def c7Obs : Inat.RawObs :=
  { id := some 9, photos := [{ license_code := some "cc-by", url := some "u" }],
    taxon := none, user := some { login := some "jdoe", name := some "J. Doe" },
    place_guess := some "Springfield", observed_on_string := some "2025-01-01",
    created_at := none, quality_grade := some "research" }

/-- Concrete qualifying raw result for the C10 witness. -/
def c10Obs : Inat.RawObs :=
  { id := some 11, photos := [{ license_code := some "cc-by-sa", url := some "u" }],
    taxon := some { preferred_common_name := some "Shark", name := some "Selachii" },
    user := none, place_guess := none, observed_on_string := none,
    created_at := some "2025-02-02", quality_grade := some "needs_id" }

/-- Membership in `uniqFrom`: every kept element is new, qualifying (length at
least 8) and drawn from the input. -/
theorem mem_uniqFrom {b : String} : ∀ {seen l : List String},
    b ∈ uniqFrom seen l ↔ b ∈ l ∧ 8 ≤ b.length ∧ b ∉ seen := by
  intro seen l
  induction l generalizing seen with
  | nil => simp [uniqFrom]
  | cons a rest ih =>
    by_cases h : a ∉ seen ∧ 8 ≤ a.length
    · simp only [uniqFrom, if_pos h]
      constructor
      · intro hmem
        rcases List.mem_cons.mp hmem with rfl | hmem
        · exact ⟨List.mem_cons_self _ _, h.2, h.1⟩
        · obtain ⟨hb, hlen, hns⟩ := ih.mp hmem
          exact ⟨List.mem_cons_of_mem _ hb, hlen,
            fun hsb => hns (List.mem_cons_of_mem _ hsb)⟩
      · rintro ⟨hb, hlen, hns⟩
        by_cases hba : b = a
        · subst hba
          exact List.mem_cons_self _ _
        · rcases List.mem_cons.mp hb with rfl | hb
          · exact absurd rfl hba
          · refine List.mem_cons_of_mem _ (ih.mpr ⟨hb, hlen, ?_⟩)
            intro hsb
            rcases List.mem_cons.mp hsb with rfl | hsb
            · exact hba rfl
            · exact hns hsb
    · simp only [uniqFrom, if_neg h]
      rw [ih]
      constructor
      · rintro ⟨hb, hlen, hns⟩
        exact ⟨List.mem_cons_of_mem _ hb, hlen, hns⟩
      · rintro ⟨hb, hlen, hns⟩
        rcases List.mem_cons.mp hb with rfl | hb
        · exfalso
          rcases not_and_or.mp h with h1 | h2
          · exact hns (not_not.mp h1)
          · exact h2 hlen
        · exact ⟨hb, hlen, hns⟩

/-- `uniqFrom` never repeats an element. -/
theorem nodup_uniqFrom : ∀ (seen l : List String), (uniqFrom seen l).Nodup := by
  intro seen l
  induction l generalizing seen with
  | nil => simp [uniqFrom]
  | cons a rest ih =>
    by_cases h : a ∉ seen ∧ 8 ≤ a.length
    · simp only [uniqFrom, if_pos h]
      refine List.nodup_cons.mpr ⟨?_, ih (a :: seen)⟩
      intro hmem
      exact (mem_uniqFrom.mp hmem).2.2 (List.mem_cons_self _ _)
    · simp only [uniqFrom, if_neg h]
      exact ih seen

/-- All elements kept by `uniqFrom` have length at least 8. -/
theorem length_ge_of_mem_uniqFrom {seen l : List String} {b : String}
    (h : b ∈ uniqFrom seen l) : 8 ≤ b.length :=
  (mem_uniqFrom.mp h).2.1

/-- The capped source loop `dedupLoop` is the truncation of the uncapped
first-occurrence dedup, as long as the accumulator is still below the cap. -/
theorem dedupLoop_eq_take (cap : Nat) : ∀ (l seen acc : List String),
    acc.length < cap →
    dedupLoop cap seen acc l = acc ++ (uniqFrom seen l).take (cap - acc.length) := by
  intro l
  induction l with
  | nil => intro seen acc _; simp [dedupLoop, uniqFrom]
  | cons a rest ih =>
    intro seen acc hacc
    by_cases h : a ∉ seen ∧ 8 ≤ a.length
    · simp only [dedupLoop, uniqFrom, if_pos h]
      by_cases hbrk : cap ≤ (acc ++ [a]).length
      · rw [if_pos hbrk]
        have hcap : cap - acc.length = 1 := by
          simp only [List.length_append, List.length_singleton] at hbrk
          omega
        rw [hcap]
        simp [List.take_succ_cons]
      · rw [if_neg hbrk]
        have hlt : (acc ++ [a]).length < cap := Nat.lt_of_not_le hbrk
        rw [ih (a :: seen) (acc ++ [a]) hlt]
        have hsub : cap - (acc ++ [a]).length + 1 = cap - acc.length := by
          simp only [List.length_append, List.length_singleton]
          omega
        rw [← hsub, List.take_succ_cons]
        simp
    · simp only [dedupLoop, uniqFrom, if_neg h]
      exact ih seen acc hacc

/-- If no collected match qualifies (every string is shorter than 8), the
dedup produces nothing. -/
theorem uniqFrom_eq_nil {seen l : List String}
    (h : ∀ s ∈ l, s.length < 8) : uniqFrom seen l = [] := by
  induction l generalizing seen with
  | nil => rfl
  | cons a rest ih =>
    have ha : a.length < 8 := h a (List.mem_cons_self _ _)
    have : ¬ (a ∉ seen ∧ 8 ≤ a.length) := fun hc => absurd hc.2 (Nat.not_le_of_lt ha)
    simp only [uniqFrom, if_neg this]
    exact ih fun s hs => h s (List.mem_cons_of_mem _ hs)

/-- The number of elements kept by `uniqFrom` from an empty seen set is the
number of distinct qualifying strings in the input. -/
theorem length_uniqFrom_nil (l : List String) :
    (uniqFrom [] l).length = ((l.filter fun s => 8 ≤ s.length).dedup).length := by
  have hnd₁ : (uniqFrom [] l).Nodup := nodup_uniqFrom [] l
  have hnd₂ : ((l.filter fun s => 8 ≤ s.length).dedup).Nodup := List.nodup_dedup _
  have hmem : ∀ b, b ∈ uniqFrom [] l ↔ b ∈ (l.filter fun s => 8 ≤ s.length).dedup := by
    intro b
    rw [mem_uniqFrom, List.mem_dedup, List.mem_filter]
    simp
  have hfin : (uniqFrom [] l).toFinset = ((l.filter fun s => 8 ≤ s.length).dedup).toFinset := by
    ext b
    simp only [List.mem_toFinset]
    exact hmem b
  calc (uniqFrom [] l).length
      = (uniqFrom [] l).toFinset.card := (List.toFinset_card_of_nodup hnd₁).symm
    _ = ((l.filter fun s => 8 ≤ s.length).dedup).toFinset.card := by rw [hfin]
    _ = ((l.filter fun s => 8 ≤ s.length).dedup).length := List.toFinset_card_of_nodup hnd₂

/-- Core behaviour of an eBird pipeline run with dedup cap `cap` (at least
12) when at least one qualifying match exists: the loop result is nonempty,
truncating it to 12 agrees with truncating the uncapped first-occurrence
dedup, and the truncation has exactly `min N 12` elements, no duplicates,
all of length at least 8. -/
theorem ebird_core (cap : Nat) (hcap12 : 12 ≤ cap) (l : List String)
    (hN : 1 ≤ ((l.filter fun s => 8 ≤ s.length).dedup).length) :
    dedupLoop cap [] [] l ≠ [] ∧
    (dedupLoop cap [] [] l).take 12 = (uniqFrom [] l).take 12 ∧
    ((dedupLoop cap [] [] l).take 12).length
      = min ((l.filter fun s => 8 ≤ s.length).dedup).length 12 ∧
    ((dedupLoop cap [] [] l).take 12).Nodup ∧
    ∀ s ∈ (dedupLoop cap [] [] l).take 12, 8 ≤ s.length := by
  have hpos : 0 < cap := lt_of_lt_of_le (by norm_num) hcap12
  have hdef : dedupLoop cap [] [] l = (uniqFrom [] l).take cap := by
    have h := dedupLoop_eq_take cap l [] [] (by simpa using hpos)
    simpa using h
  have hNu : 1 ≤ (uniqFrom [] l).length := by
    rw [length_uniqFrom_nil]; exact hN
  have htake : (dedupLoop cap [] [] l).take 12 = (uniqFrom [] l).take 12 := by
    rw [hdef, List.take_take]
    congr 1
    omega
  refine ⟨?_, htake, ?_, ?_, ?_⟩
  · rw [hdef]
    intro hnil
    have hlen := congrArg List.length hnil
    rw [List.length_take] at hlen
    simp only [List.length_nil] at hlen
    omega
  · rw [htake, List.length_take, length_uniqFrom_nil]
    omega
  · rw [htake]
    exact List.Sublist.nodup (List.take_sublist _ _) (nodup_uniqFrom [] l)
  · intro s hs
    rw [htake] at hs
    exact length_ge_of_mem_uniqFrom ((List.take_sublist _ _).subset hs)

/-- C1 (amended): for every fetched page containing N distinct qualifying
identifier strings (length at least 8) across the heuristic surfaces, with
N at least 1, both eBird extraction variants return exactly `min N 12`
unique identifiers, ordered by first occurrence across the heuristics in
source order, each of length at least 8 and with no duplicates.  (With
N = 0 the pipelines instead return the 8-element fallback list.) -/
theorem ebird_extraction_min_count
    (img link p1 p2 p3 p4 p5 p6 a1 a2 a3 a4 : List String)
    (hA : 1 ≤ (((img ++ link ++ p1 ++ p2 ++ p3 ++ p4 ++ p5 ++ p6).filter
        fun s => 8 ≤ s.length).dedup).length)
    (hB : 1 ≤ (((a1 ++ a2 ++ a3 ++ a4).filter fun s => 8 ≤ s.length).dedup).length) :
    (EbirdPl.scrape_ebird_photos img link p1 p2 p3 p4 p5 p6).length
      = min (((img ++ link ++ p1 ++ p2 ++ p3 ++ p4 ++ p5 ++ p6).filter
          fun s => 8 ≤ s.length).dedup).length 12 ∧
    EbirdPl.scrape_ebird_photos img link p1 p2 p3 p4 p5 p6
      = (uniqFrom [] (img ++ link ++ p1 ++ p2 ++ p3 ++ p4 ++ p5 ++ p6)).take 12 ∧
    (EbirdPl.scrape_ebird_photos img link p1 p2 p3 p4 p5 p6).Nodup ∧
    (∀ s ∈ EbirdPl.scrape_ebird_photos img link p1 p2 p3 p4 p5 p6, 8 ≤ s.length) ∧
    (EbirdBs.scrape_ebird_photos a1 a2 a3 a4).length
      = min (((a1 ++ a2 ++ a3 ++ a4).filter fun s => 8 ≤ s.length).dedup).length 12 ∧
    EbirdBs.scrape_ebird_photos a1 a2 a3 a4
      = (uniqFrom [] (a1 ++ a2 ++ a3 ++ a4)).take 12 ∧
    (EbirdBs.scrape_ebird_photos a1 a2 a3 a4).Nodup ∧
    ∀ s ∈ EbirdBs.scrape_ebird_photos a1 a2 a3 a4, 8 ≤ s.length := by
  obtain ⟨hne, htake, hlen, hnd, hmem⟩ :=
    ebird_core 50 (by norm_num) (img ++ link ++ p1 ++ p2 ++ p3 ++ p4 ++ p5 ++ p6) hA
  obtain ⟨hne', htake', hlen', hnd', hmem'⟩ :=
    ebird_core 15 (by norm_num) (a1 ++ a2 ++ a3 ++ a4) hB
  have hsc : EbirdPl.scrape_ebird_photos img link p1 p2 p3 p4 p5 p6
      = (dedupLoop 50 [] [] (img ++ link ++ p1 ++ p2 ++ p3 ++ p4 ++ p5 ++ p6)).take 12 := by
    show (if dedupLoop 50 [] [] (img ++ link ++ p1 ++ p2 ++ p3 ++ p4 ++ p5 ++ p6) = []
        then EbirdPl.get_fallback_assets
        else (dedupLoop 50 [] [] (img ++ link ++ p1 ++ p2 ++ p3 ++ p4 ++ p5 ++ p6)).take 12) = _
    rw [if_neg hne]
  have hsc' : EbirdBs.scrape_ebird_photos a1 a2 a3 a4
      = (dedupLoop 15 [] [] (a1 ++ a2 ++ a3 ++ a4)).take 12 := by
    show (if dedupLoop 15 [] [] (a1 ++ a2 ++ a3 ++ a4) = []
        then ["629849023", "629848993", "629848963", "629848933",
              "629848903", "629848873", "629848843", "629848813"]
        else dedupLoop 15 [] [] (a1 ++ a2 ++ a3 ++ a4)).take 12 = _
    rw [if_neg hne']
  rw [hsc, hsc']
  exact ⟨hlen, htake, hnd, hmem, hlen', htake', hnd', hmem'⟩

/-- C1 counterexample: a page with zero qualifying identifiers (N = 0)
makes the Playwright pipeline return the 8-element fallback list, not
`min 0 12 = 0` identifiers, so the unamended claim is false at N = 0. -/
theorem ebird_extraction_zero_counterexample :
    ((([] : List String) ++ [] ++ [] ++ [] ++ [] ++ [] ++ [] ++ []).filter
        fun s : String => 8 ≤ s.length).dedup.length = 0 ∧
    (EbirdPl.scrape_ebird_photos [] [] [] [] [] [] [] []).length ≠ min 0 12 := by
  constructor
  · rfl
  · decide

/-- C1 witness: the amended count theorem applied to a concrete page whose
only qualifying identifiers are one image match (Playwright variant) and one
anchor match (static variant). -/
theorem ebird_extraction_min_count_witness :
    (EbirdPl.scrape_ebird_photos ["11112222"] [] [] [] [] [] [] []).length
      = min (((["11112222"] ++ [] ++ [] ++ [] ++ [] ++ [] ++ [] ++ []).filter
          fun s : String => 8 ≤ s.length).dedup).length 12 :=
  (ebird_extraction_min_count ["11112222"] [] [] [] [] [] [] [] ["33334444"] [] [] []
    (by decide) (by decide)).1

/-- C2: in both eBird variants, when no collected match qualifies (so zero
unique identifiers remain after all heuristics), the pipeline returns
exactly the fixed 8-element fallback list, never an empty list. -/
theorem ebird_zero_matches_fallback
    (img link p1 p2 p3 p4 p5 p6 a1 a2 a3 a4 : List String)
    (hA : ∀ s ∈ img ++ link ++ p1 ++ p2 ++ p3 ++ p4 ++ p5 ++ p6, s.length < 8)
    (hB : ∀ s ∈ a1 ++ a2 ++ a3 ++ a4, s.length < 8) :
    EbirdPl.scrape_ebird_photos img link p1 p2 p3 p4 p5 p6
      = EbirdPl.get_fallback_assets ∧
    EbirdBs.scrape_ebird_photos a1 a2 a3 a4 = EbirdBs.get_fallback_assets ∧
    EbirdPl.get_fallback_assets.length = 8 ∧
    EbirdBs.get_fallback_assets.length = 8 ∧
    EbirdPl.get_fallback_assets ≠ [] ∧ EbirdBs.get_fallback_assets ≠ [] := by
  have huA : uniqFrom [] (img ++ link ++ p1 ++ p2 ++ p3 ++ p4 ++ p5 ++ p6) = [] :=
    uniqFrom_eq_nil hA
  have huB : uniqFrom [] (a1 ++ a2 ++ a3 ++ a4) = [] := uniqFrom_eq_nil hB
  have hdA : dedupLoop 50 [] [] (img ++ link ++ p1 ++ p2 ++ p3 ++ p4 ++ p5 ++ p6) = [] := by
    rw [dedupLoop_eq_take 50 (img ++ link ++ p1 ++ p2 ++ p3 ++ p4 ++ p5 ++ p6) [] []
      (by simp), huA]
    rfl
  have hdB : dedupLoop 15 [] [] (a1 ++ a2 ++ a3 ++ a4) = [] := by
    rw [dedupLoop_eq_take 15 (a1 ++ a2 ++ a3 ++ a4) [] [] (by simp), huB]
    rfl
  refine ⟨?_, ?_, by decide, by decide, by decide, by decide⟩
  · show (if dedupLoop 50 [] [] (img ++ link ++ p1 ++ p2 ++ p3 ++ p4 ++ p5 ++ p6) = []
        then EbirdPl.get_fallback_assets
        else (dedupLoop 50 [] [] (img ++ link ++ p1 ++ p2 ++ p3 ++ p4 ++ p5 ++ p6)).take 12) = _
    rw [if_pos hdA]
  · show (if dedupLoop 15 [] [] (a1 ++ a2 ++ a3 ++ a4) = []
        then ["629849023", "629848993", "629848963", "629848933",
              "629848903", "629848873", "629848843", "629848813"]
        else dedupLoop 15 [] [] (a1 ++ a2 ++ a3 ++ a4)).take 12 = _
    rw [if_pos hdB]
    decide

/-- C2 witness: the fallback theorem applied to a concrete page whose only
matches are too short to qualify. -/
theorem ebird_zero_matches_fallback_witness :
    EbirdPl.scrape_ebird_photos ["1234"] ["567"] [] [] [] [] [] []
      = EbirdPl.get_fallback_assets :=
  (ebird_zero_matches_fallback ["1234"] ["567"] [] [] [] [] [] [] ["99"] [] [] []
    (by decide) (by decide)).1

/-- `uniqFrom` keeps something whenever some input string qualifies. -/
theorem uniqFrom_ne_nil {l : List String} (h : ∃ s ∈ l, 8 ≤ s.length) :
    uniqFrom [] l ≠ [] := by
  obtain ⟨s, hs, hlen⟩ := h
  intro hnil
  have hmem : s ∈ uniqFrom [] l := mem_uniqFrom.mpr ⟨hs, hlen, by simp⟩
  rw [hnil] at hmem
  exact absurd hmem (List.not_mem_nil s)

/-- C5 (amended): the heuristic matches are concatenated before
deduplication in the source order of each script, which differs between the
variants.  Static-HTML variant: anchor hrefs (`a1`), then image `src`
matches (`a2`), then `data-asset-id` attributes (`a3`), then raw-text `ML`
numbers (`a4`); there is no embedded-JSON heuristic.  Playwright variant:
DOM image `src` matches (`img`) first, then DOM anchor hrefs (`link`), then
the page-content passes: asset URLs (`p1`), raw-text `ML` numbers (`p2`),
`catalogId` (`p3`), `assetId` (`p4`), image paths (`p5`), data attributes
(`p6`).  Whenever a qualifying match exists, each output is the 12-element
truncation of the first-occurrence dedup of exactly that concatenation. -/
theorem ebird_heuristic_order_amended
    (img link p1 p2 p3 p4 p5 p6 a1 a2 a3 a4 : List String)
    (hA : ∃ s ∈ img ++ link ++ p1 ++ p2 ++ p3 ++ p4 ++ p5 ++ p6, 8 ≤ s.length)
    (hB : ∃ s ∈ a1 ++ a2 ++ a3 ++ a4, 8 ≤ s.length) :
    EbirdPl.scrape_ebird_photos img link p1 p2 p3 p4 p5 p6
      = (uniqFrom [] (img ++ link ++ p1 ++ p2 ++ p3 ++ p4 ++ p5 ++ p6)).take 12 ∧
    EbirdBs.scrape_ebird_photos a1 a2 a3 a4
      = (uniqFrom [] (a1 ++ a2 ++ a3 ++ a4)).take 12 := by
  have hA1 : 1 ≤ (((img ++ link ++ p1 ++ p2 ++ p3 ++ p4 ++ p5 ++ p6).filter
      fun s => 8 ≤ s.length).dedup).length := by
    rw [← length_uniqFrom_nil]
    exact List.length_pos.mpr (uniqFrom_ne_nil hA)
  have hB1 : 1 ≤ (((a1 ++ a2 ++ a3 ++ a4).filter fun s => 8 ≤ s.length).dedup).length := by
    rw [← length_uniqFrom_nil]
    exact List.length_pos.mpr (uniqFrom_ne_nil hB)
  obtain ⟨_, h2, _, _, _, h6, _, _⟩ :=
    ebird_extraction_min_count img link p1 p2 p3 p4 p5 p6 a1 a2 a3 a4 hA1 hB1
  exact ⟨h2, h6⟩

/-- C5 counterexample: in the Playwright variant a match found only by the
DOM image heuristic precedes, in the output, a match found only by the
anchor heuristic — the claimed anchors-first order would put "22222222"
first. -/
theorem ebird_heuristic_order_counterexample :
    EbirdPl.scrape_ebird_photos ["11111111"] ["22222222"] [] [] [] [] [] []
      = ["11111111", "22222222"] ∧
    EbirdPl.scrape_ebird_photos ["11111111"] ["22222222"] [] [] [] [] [] []
      ≠ ["22222222", "11111111"] := by decide

/-- C5 witness: the amended order theorem applied to a concrete page. -/
theorem ebird_heuristic_order_amended_witness :
    EbirdPl.scrape_ebird_photos ["55556666"] ["77778888"] [] [] [] [] [] []
      = (uniqFrom [] (["55556666"] ++ ["77778888"] ++ [] ++ [] ++ [] ++ [] ++ [] ++ [])).take 12 :=
  (ebird_heuristic_order_amended ["55556666"] ["77778888"] [] [] [] [] [] []
    ["55556666"] [] [] [] (by decide) (by decide)).1

/-- The fuel of `replaceAllAux` does not matter once it covers the input
length. -/
theorem replaceAllAux_fuel {pat rep : List Char} : ∀ (n : Nat), ∀ (l : List Char),
    ∀ (f₁ f₂ : Nat), l.length = n → n ≤ f₁ → n ≤ f₂ →
    replaceAllAux pat rep f₁ l = replaceAllAux pat rep f₂ l := by
  intro n
  induction n using Nat.strong_induction_on with
  | _ n ih =>
    intro l f₁ f₂ hlen h₁ h₂
    match l with
    | [] => cases f₁ <;> cases f₂ <;> rfl
    | a :: rest =>
      have hn : n = rest.length + 1 := by simpa using hlen.symm
      obtain ⟨g₁, rfl⟩ : ∃ g, f₁ = g + 1 := ⟨f₁ - 1, by omega⟩
      obtain ⟨g₂, rfl⟩ : ∃ g, f₂ = g + 1 := ⟨f₂ - 1, by omega⟩
      have hdl := List.length_drop (pat.length - 1) rest
      by_cases h : pat.isPrefixOf (a :: rest) ∧ pat ≠ []
      · simp only [replaceAllAux, if_pos h]
        congr 1
        exact ih (rest.drop (pat.length - 1)).length (by omega)
          (rest.drop (pat.length - 1)) g₁ g₂ rfl (by omega) (by omega)
      · simp only [replaceAllAux, if_neg h]
        congr 1
        exact ih rest.length (by omega) rest g₁ g₂ rfl (by omega) (by omega)

/-- Unfolding: `replaceAll` on a match at the head. -/
theorem replaceAll_cons_pos {pat rep : List Char} {a : Char} {rest : List Char}
    (hpre : pat.isPrefixOf (a :: rest)) (hne : pat ≠ []) :
    replaceAll pat rep (a :: rest) = rep ++ replaceAll pat rep (rest.drop (pat.length - 1)) := by
  show replaceAllAux pat rep (rest.length + 1) (a :: rest) = _
  simp only [replaceAllAux, if_pos (And.intro hpre hne)]
  congr 1
  exact replaceAllAux_fuel (rest.drop (pat.length - 1)).length _ rest.length
    (rest.drop (pat.length - 1)).length rfl
    (by have := List.length_drop (pat.length - 1) rest; omega) (by omega)

/-- Unfolding: `replaceAll` on a non-matching head. -/
theorem replaceAll_cons_neg {pat rep : List Char} {a : Char} {rest : List Char}
    (h : ¬ (pat.isPrefixOf (a :: rest) ∧ pat ≠ [])) :
    replaceAll pat rep (a :: rest) = a :: replaceAll pat rep rest := by
  show replaceAllAux pat rep (rest.length + 1) (a :: rest) = _
  simp only [replaceAllAux, if_neg h]
  rfl

/-- A string with no occurrence of the pattern is unchanged. -/
theorem replaceAll_of_no_occurrence {pat rep : List Char} :
    ∀ {l : List Char}, ¬ pat <:+: l → replaceAll pat rep l = l := by
  intro l
  induction l with
  | nil => intro _; rfl
  | cons a rest ih =>
    intro hinf
    have hpre : ¬ pat.isPrefixOf (a :: rest) := by
      intro hp
      exact hinf (List.IsPrefix.isInfix (List.isPrefixOf_iff_prefix.mp hp))
    rw [replaceAll_cons_neg (fun hc => hpre hc.1)]
    rw [ih (fun hc => hinf (List.infix_cons hc))]

/-- Left-to-right replacement at the first occurrence: if the pattern has no
occurrence before position `x.length` (none inside `x ++ pat.dropLast`), the
replacement consumes that occurrence and continues in the tail. -/
theorem replaceAll_first_occurrence {pat rep : List Char} (hne : pat ≠ []) :
    ∀ (x y : List Char), ¬ pat <:+: (x ++ pat.dropLast) →
    replaceAll pat rep (x ++ pat ++ y) = x ++ rep ++ replaceAll pat rep y := by
  intro x
  induction x with
  | nil =>
    intro y _
    match pat, hne with
    | p :: ps, _ =>
      have hpre : (p :: ps).isPrefixOf (p :: (ps ++ y)) := by
        rw [List.isPrefixOf_iff_prefix]
        exact ⟨y, by simp⟩
      have : ([] : List Char) ++ (p :: ps) ++ y = p :: (ps ++ y) := by simp
      rw [this, replaceAll_cons_pos hpre (by simp)]
      have hlen : (p :: ps).length - 1 = ps.length := by simp
      rw [hlen, List.drop_left]
      simp
  | cons a x' ih =>
    intro y hocc
    have hpre : ¬ pat.isPrefixOf ((a :: x') ++ pat ++ y) := by
      intro hp
      have hp' : pat <+: (a :: x') ++ pat ++ y := List.isPrefixOf_iff_prefix.mp hp
      have hz : (a :: x') ++ pat.dropLast <+: (a :: x') ++ pat ++ y := by
        obtain ⟨c, hc⟩ := List.dropLast_prefix pat
        exact ⟨c ++ y, by rw [List.append_assoc, List.append_assoc, ← List.append_assoc
          pat.dropLast c y, hc]⟩
      have hlen : pat.length ≤ ((a :: x') ++ pat.dropLast).length := by
        simp only [List.length_append, List.length_cons, List.length_dropLast]
        have : 1 ≤ pat.length := List.length_pos.mpr hne
        omega
      exact hocc (List.IsPrefix.isInfix
        (List.prefix_of_prefix_length_le hp' hz hlen))
    have hstep : replaceAll pat rep ((a :: x') ++ pat ++ y)
        = a :: replaceAll pat rep (x' ++ pat ++ y) := by
      have : (a :: x') ++ pat ++ y = a :: (x' ++ pat ++ y) := by simp
      rw [this]
      exact replaceAll_cons_neg (fun hc => hpre (by simpa using hc.1))
    rw [hstep, ih y (fun hc => hocc (List.infix_cons hc))]
    simp

/-- C3: a raw result with an empty photo list is skipped, one whose first
photo has no license code is skipped (and a skipped result contributes
nothing to the accumulation loop's output), and one whose first photo has
license code "cc0" yields a record whose license_url is the public-domain
deed and whose license_name is "CC0 (Public Domain)". -/
theorem inat_exclusions_and_cc0 (obs : Inat.RawObs) :
    (obs.photos = [] → Inat.normObs obs = none) ∧
    (∀ p rest, obs.photos = p :: rest → p.license_code = none →
      Inat.normObs obs = none) ∧
    (∀ p rest, obs.photos = p :: rest → p.license_code = some "cc0" →
      (Inat.normObs obs).map (fun o => (o.license_url, o.license_name))
        = some ("https://creativecommons.org/publicdomain/zero/1.0/",
                "CC0 (Public Domain)")) ∧
    (∀ c acc tail, Inat.normObs obs = none →
      Inat.processLoop c acc (obs :: tail) = Inat.processLoop c acc tail) := by
  refine ⟨?_, ?_, ?_, ?_⟩
  · intro h
    simp [Inat.normObs, h]
  · intro p rest hp hl
    simp [Inat.normObs, hp, hl]
  · intro p rest hp hl
    simp only [Inat.normObs, hp, hl]
    rw [if_neg (by decide : ¬ ("cc0" : String) = "")]
    rfl
  · intro c acc tail h
    simp [Inat.processLoop, h]

/-- C3 witness: the three branches at concrete raw results. -/
theorem inat_exclusions_and_cc0_witness :
    Inat.normObs c3ObsEmptyPhotos = none ∧
    Inat.normObs c3ObsNoLicense = none ∧
    (Inat.normObs c3ObsCc0).map (fun o => (o.license_url, o.license_name))
      = some ("https://creativecommons.org/publicdomain/zero/1.0/",
              "CC0 (Public Domain)") :=
  ⟨(inat_exclusions_and_cc0 c3ObsEmptyPhotos).1 rfl,
   (inat_exclusions_and_cc0 c3ObsNoLicense).2.1 _ _ rfl rfl,
   (inat_exclusions_and_cc0 c3ObsCc0).2.2.1 _ _ rfl rfl⟩

/-- C4: every transport or parsing failure makes the scraper return the
single fixed placeholder observation; the written envelope has count 1 and
its sole record's species_scientific is "Genus species". -/
theorem inat_failure_placeholder (e : String) (c : Nat) (now t : String) :
    Inat.scrape_inat_observations c (.error e) = Inat.get_fallback_observations ∧
    (Inat.save_observations now (Inat.scrape_inat_observations c (.error e)) t).count = 1 ∧
    (Inat.scrape_inat_observations c (.error e)).map (fun o => o.species_scientific)
      = ["Genus species"] :=
  ⟨rfl, rfl, rfl⟩

/-- C6 (amended): the image-URL rewrite is Python `str.replace`: it
replaces every occurrence of "square" with "large", not just one.  In
particular, a URL with a single occurrence — of the form `x ++ "square" ++ y`
with no occurrence inside `x ++ "squar"` nor inside `y` — has exactly that
occurrence replaced, and a URL not containing "square" is unchanged. -/
theorem inat_image_url_rewrite (x y z : List Char)
    (h1 : ¬ ("square".data <:+: x ++ "square".data.dropLast))
    (h2 : ¬ ("square".data <:+: y))
    (h3 : ¬ ("square".data <:+: z)) :
    stringReplace (String.mk (x ++ "square".data ++ y)) "square" "large"
      = String.mk (x ++ "large".data ++ y) ∧
    stringReplace (String.mk z) "square" "large" = String.mk z := by
  constructor
  · show String.mk (replaceAll "square".data "large".data (x ++ "square".data ++ y)) = _
    rw [replaceAll_first_occurrence (by decide) x y h1,
        replaceAll_of_no_occurrence h2]
  · show String.mk (replaceAll "square".data "large".data z) = _
    rw [replaceAll_of_no_occurrence h3]

/-- C6 counterexample: on a URL containing "square" twice, the rewrite
replaces both occurrences; neither single-occurrence replacement matches. -/
theorem inat_image_url_rewrite_counterexample :
    stringReplace "squaresquare" "square" "large" = "largelarge" ∧
    ("largelarge" : String) ≠ "largesquare" ∧
    ("largelarge" : String) ≠ "squarelarge" := by
  refine ⟨by decide, by decide, by decide⟩

/-- C6 witness: the amended rewrite theorem at a concrete photo URL with a
single "square" occurrence. -/
theorem inat_image_url_rewrite_witness :
    stringReplace (String.mk ("https://s/p/1/".data ++ "square".data ++ ".jpg".data))
      "square" "large"
      = String.mk ("https://s/p/1/".data ++ "large".data ++ ".jpg".data) :=
  (inat_image_url_rewrite "https://s/p/1/".data ".jpg".data "n".data
    (by decide) (by decide) (by decide)).1

/-- C7: for every qualifying raw result the record's observer field is the
user's display name when one is set, and falls back to the login handle
(the record's observer_login, "Unknown" when the login is also absent)
when no display name is set. -/
theorem inat_observer_preference (obs : Inat.RawObs) (p : Inat.RawPhoto)
    (rest : List Inat.RawPhoto) (lc : String)
    (hp : obs.photos = p :: rest) (hl : p.license_code = some lc) (hne : ¬ lc = "") :
    (∀ n, (obs.user.getD Inat.emptyUser).name = some n →
      (Inat.normObs obs).map (fun o => o.observer) = some n) ∧
    ((obs.user.getD Inat.emptyUser).name = none →
      (Inat.normObs obs).map (fun o => (o.observer, o.observer_login))
        = some ((obs.user.getD Inat.emptyUser).login.getD "Unknown",
                (obs.user.getD Inat.emptyUser).login.getD "Unknown")) := by
  constructor
  · intro n hn
    simp [Inat.normObs, hp, hl, hne, hn]
  · intro hn
    simp [Inat.normObs, hp, hl, hne, hn]

/-- C7 witness: observer preference at a concrete raw result whose user has
both a display name and a login. -/
theorem inat_observer_preference_witness :
    (Inat.normObs c7Obs).map (fun o => o.observer) = some "J. Doe" :=
  (inat_observer_preference c7Obs _ _ "cc-by" rfl rfl (by decide)).1 "J. Doe" rfl

/-- C8: the license URL mapping sends code "cc-by-nc" to the by-nc 4.0
deed URL. -/
theorem license_url_cc_by_nc :
    Inat.get_license_url "cc-by-nc" = "https://creativecommons.org/licenses/by-nc/4.0/" := by
  decide

/-- C9: every output envelope of the three scripts has count equal to the
length of its item list, carries the generation timestamp, and a fixed
source label. -/
theorem output_envelope_invariants (now t : String) (xs ys : List String)
    (os : List Inat.Observation) :
    (EbirdPl.save_assets now xs).count = (EbirdPl.save_assets now xs).assets.length ∧
    (EbirdPl.save_assets now xs).last_updated = now ∧
    (EbirdPl.save_assets now xs).source = "eBird Top Photos (Last 7 Days)" ∧
    (EbirdBs.save_assets now ys).count = (EbirdBs.save_assets now ys).assets.length ∧
    (EbirdBs.save_assets now ys).last_updated = now ∧
    (EbirdBs.save_assets now ys).source = "eBird Top Photos (Last 7 Days)" ∧
    (Inat.save_observations now os t).count
      = (Inat.save_observations now os t).observations.length ∧
    (Inat.save_observations now os t).last_updated = now ∧
    (Inat.save_observations now os t).source = "iNaturalist" :=
  ⟨rfl, rfl, rfl, rfl, rfl, rfl, rfl, rfl, rfl⟩

/-- With requested count 0 the loop still appends the first qualifying
record and only then breaks. -/
theorem processLoop_zero_len : ∀ (results : List Inat.RawObs)
    (acc : List Inat.Observation),
    (∃ r ∈ results, Inat.normObs r ≠ none) →
    (Inat.processLoop 0 acc results).length = acc.length + 1 := by
  intro results
  induction results with
  | nil =>
    intro acc h
    simp at h
  | cons r rest ih =>
    intro acc h
    match hno : Inat.normObs r with
    | some o =>
      simp only [Inat.processLoop, hno]
      rw [if_pos (Nat.zero_le _)]
      simp
    | none =>
      simp only [Inat.processLoop, hno]
      apply ih
      obtain ⟨r', hr', hne⟩ := h
      rcases List.mem_cons.mp hr' with rfl | hr'
      · exact absurd hno hne
      · exact ⟨r', hr', hne⟩

/-- The loop never grows past `max 1 c` records. -/
theorem processLoop_length_le (c : Nat) : ∀ (results : List Inat.RawObs)
    (acc : List Inat.Observation), acc.length < max 1 c →
    (Inat.processLoop c acc results).length ≤ max 1 c := by
  intro results
  induction results with
  | nil =>
    intro acc h
    simp only [Inat.processLoop]
    omega
  | cons r rest ih =>
    intro acc h
    match hno : Inat.normObs r with
    | none =>
      simp only [Inat.processLoop, hno]
      exact ih acc h
    | some o =>
      simp only [Inat.processLoop, hno]
      by_cases hc : c ≤ (acc ++ [o]).length
      · rw [if_pos hc]
        simp only [List.length_append, List.length_cons, List.length_nil] at hc ⊢
        omega
      · rw [if_neg hc]
        apply ih
        simp only [List.length_append, List.length_cons, List.length_nil] at hc ⊢
        omega

/-- C10: the stop condition is checked only after a record is appended:
with requested count 0 and at least one qualifying API result the output
has exactly one record, and for every requested count c the output never
has more than `max 1 c` records. -/
theorem inat_stop_after_append (c : Nat) (results : List Inat.RawObs) :
    ((∃ r ∈ results, Inat.normObs r ≠ none) →
      (Inat.scrape_inat_observations 0 (.ok results)).length = 1) ∧
    (Inat.scrape_inat_observations c (.ok results)).length ≤ max 1 c := by
  constructor
  · intro h
    show (Inat.processLoop 0 [] results).length = 1
    rw [processLoop_zero_len results [] h]
    rfl
  · show (Inat.processLoop c [] results).length ≤ max 1 c
    exact processLoop_length_le c results [] (by simp)

/-- C10 witness: requested count 0 against one qualifying result yields
exactly one record. -/
theorem inat_stop_after_append_witness :
    (Inat.scrape_inat_observations 0 (.ok [c10Obs])).length = 1 :=
  (inat_stop_after_append 0 [c10Obs]).1
    ⟨c10Obs, List.mem_cons_self _ _, by decide⟩
